import Mathlib

/-!
Verification of the graph-editing core of `src/app.py` ("Web of Abstraction"):
a directed graph of nodes `{id, text, level}` held in a networkx `DiGraph`
together with `id_counter`, `root_id` and `current_id` session state, the edit
operations (`set_root`, `add_above`, `add_below`, edit-text, `delete_node`),
the JSON serializer (`to_dict` / `load_from_dict`) and the render projection.

The embedding models the networkx `DiGraph` as insertion-ordered lists:
`nodes` is the list of `(id, attrs)` pairs in insertion order, where the
attrs of a node carry the optional `data : NodeData` attribute (a node
created implicitly by `add_edge` has no `data` attribute, hence `Option`),
and `edges` is the list of directed edges in global insertion order.
networkx iterates `G.nodes` in insertion order and `G.edges` grouped by
source node (in node insertion order, each group in per-source insertion
order); `G.add_node` on an existing id overwrites the supplied attributes in
place, `G.add_edge` silently creates missing endpoints with no attributes
and ignores duplicate edges, and `G.remove_node` removes the node and every
incident edge.  Python `int` is modelled as `Int`, a raised `KeyError` as an
`Except`/`Option` error value, and a Python dict read `d["k"]` on an
optional field as a fallible match while `d.get("k", v)` is `Option.getD`.
-/

/-- `NodeData` from `app.py`: the payload stored under the `data` attribute
of each graph node. -/
structure NodeData where
  text : String
  level : Int
deriving DecidableEq, Repr

/-- The session state of the app: graph (insertion-ordered node and edge
lists), `id_counter`, `root_id`, `current_id`. -/
structure Store where
  nodes : List (Int × Option NodeData)
  edges : List (Int × Int)
  id_counter : Int
  root_id : Option Int
  current_id : Option Int
deriving DecidableEq, Repr

/-- `init_state` in `app.py`: empty graph, counter 0, no root, no current. -/
def initState : Store :=
  { nodes := [], edges := [], id_counter := 0, root_id := none, current_id := none }

/-- `G.has_node nid`. -/
def hasNode (s : Store) (i : Int) : Bool :=
  s.nodes.any (fun p => p.1 == i)

/-- Look a node up: `none` when absent, `some attrs` when present, where
`attrs` is the optional `data` attribute (`G.nodes[i]` and its `"data"` key). -/
def getNode (s : Store) (i : Int) : Option (Option NodeData) :=
  (s.nodes.find? (fun p => p.1 == i)).map Prod.snd

/-- networkx `G.add_node i, data=d`: overwrite the attributes of an existing
node in place, else append the node. -/
def addNodeG (ns : List (Int × Option NodeData)) (i : Int) (d : Option NodeData) :
    List (Int × Option NodeData) :=
  if ns.any (fun p => p.1 == i) then
    ns.map (fun p => if p.1 == i then (i, d) else p)
  else
    ns ++ [(i, d)]

/-- networkx: an endpoint of `add_edge` that is not yet a node is silently
created with no attributes (no `data`). -/
def ensureNode (ns : List (Int × Option NodeData)) (i : Int) :
    List (Int × Option NodeData) :=
  if ns.any (fun p => p.1 == i) then ns else ns ++ [(i, none)]

/-- networkx `G.add_edge u v`: create missing endpoints, ignore a duplicate
edge. -/
def addEdgeG (s : Store) (u v : Int) : Store :=
  { s with
    nodes := ensureNode (ensureNode s.nodes u) v
    edges := if (u, v) ∈ s.edges then s.edges else s.edges ++ [(u, v)] }

/-- networkx `G.remove_node i`: drop the node and every incident edge. -/
def removeNodeG (s : Store) (i : Int) : Store :=
  { s with
    nodes := s.nodes.filter (fun p => ¬ p.1 == i)
    edges := s.edges.filter (fun e => ¬ e.1 == i ∧ ¬ e.2 == i) }

/-- `add_node(text, level)` from `app.py`: issue `id_counter` as the new id,
increment the counter, insert the node; returns the new store and the id. -/
def add_node (s : Store) (text : String) (level : Int) : Store × Int :=
  let nid := s.id_counter
  ({ s with
      id_counter := s.id_counter + 1
      nodes := addNodeG s.nodes nid (some { text := text, level := level }) },
    nid)

/-- `set_root(text)` from `app.py`: add a level-0 node and point both
`root_id` and `current_id` at it. -/
def set_root (s : Store) (text : String) : Store :=
  let r := add_node s text 0
  { r.1 with root_id := some r.2, current_id := some r.2 }

/-- `add_above(cur_id, text, move_to_new)` from `app.py`: read the level of
`cur_id` (a `KeyError`, modelled `none`, if the node or its `data` attribute
is absent), create a node at `level + 1`, add edge `(new, cur)`, optionally
move `current_id`; returns the store and the new id. -/
def add_above (s : Store) (cur : Int) (text : String) (mv : Bool) :
    Option (Store × Int) :=
  match getNode s cur with
  | some (some nd) =>
      let r := add_node s text (nd.level + 1)
      let s2 := addEdgeG r.1 r.2 cur
      let s3 := if mv then { s2 with current_id := some r.2 } else s2
      some (s3, r.2)
  | _ => none

/-- `add_below(cur_id, text, move_to_new)` from `app.py`: like `add_above`
but level `level - 1` and edge `(cur, new)`. -/
def add_below (s : Store) (cur : Int) (text : String) (mv : Bool) :
    Option (Store × Int) :=
  match getNode s cur with
  | some (some nd) =>
      let r := add_node s text (nd.level - 1)
      let s2 := addEdgeG r.1 cur r.2
      let s3 := if mv then { s2 with current_id := some r.2 } else s2
      some (s3, r.2)
  | _ => none

/-- `delete_node(nid)` from `app.py`: if the node exists, remove it (and its
incident edges); if it was current, move `current_id` to `list(G.nodes)[0]`
of the remaining graph (or `None` when empty); if it was the root, clear
`root_id`.  An absent id is a silent no-op. -/
def delete_node (s : Store) (nid : Int) : Store :=
  if hasNode s nid then
    let s1 := removeNodeG s nid
    let s2 :=
      if s.current_id = some nid then
        { s1 with current_id := s1.nodes.head?.map Prod.fst }
      else s1
    if s.root_id = some nid then { s2 with root_id := none } else s2
  else s

/-- The UI "Save text" action in `app.py`:
`G.nodes[current_id]["data"].text = new_text` — a `KeyError` (modelled
`none`) if the node or its `data` attribute is absent. -/
def edit_text (s : Store) (i : Int) (text : String) : Option Store :=
  match getNode s i with
  | some (some nd) =>
      some { s with
        nodes := s.nodes.map
          (fun p => if p.1 == i then (i, some { nd with text := text }) else p) }
  | _ => none

/-- A node entry of the JSON document: each field is `none` when the key is
absent from the entry (Python dict access semantics). -/
structure DocNode where
  id : Option Int
  text : Option String
  level : Option Int
deriving DecidableEq, Repr

/-- An edge entry of the JSON document. -/
structure DocEdge where
  source : Option Int
  target : Option Int
deriving DecidableEq, Repr

/-- The JSON document of `to_dict` / `load_from_dict`; a `none` list or
scalar field models the key being absent from the top-level dict. -/
structure Doc where
  nodes : Option (List DocNode)
  edges : Option (List DocEdge)
  current_id : Option Int
  root_id : Option Int
  id_counter : Option Int
deriving DecidableEq, Repr

/-- networkx `G.edges` iteration order: for each node in insertion order,
the out-edges of that node in their per-source insertion order (the order
`to_dict` lists edges in). -/
def edgesIter (s : Store) : List (Int × Int) :=
  s.nodes.flatMap (fun p => s.edges.filter (fun e => e.1 == p.1))

/-- `to_dict()` from `app.py`: list nodes (id, text, level) in insertion
order — a `KeyError` (modelled `Except.error`) when a node has no `data`
attribute — then edges in `G.edges` order, then the three scalars. -/
def to_dict (s : Store) : Except String Doc := do
  let ns ← s.nodes.mapM (fun p =>
    match p.2 with
    | some nd =>
        Except.ok { id := some p.1, text := some nd.text, level := some nd.level }
    | none => Except.error "KeyError: data")
  Except.ok
    { nodes := some ns
      edges := some ((edgesIter s).map (fun e => { source := some e.1, target := some e.2 }))
      current_id := s.current_id
      root_id := s.root_id
      id_counter := some s.id_counter }

/-- The node loop of `load_from_dict`: for each entry, `n["id"]` then
`n["text"]` may raise `KeyError` (the loop stops there, keeping the store
mutated so far); `n.get("level", 0)` defaults to 0.  Returns the store after
the loop together with the raised error, if any. -/
def loadNodes : Store → List DocNode → Store × Option String
  | s, [] => (s, none)
  | s, n :: rest =>
    match n.id with
    | none => (s, some "KeyError: id")
    | some nid =>
      match n.text with
      | none => (s, some "KeyError: text")
      | some t =>
          loadNodes
            { s with nodes := addNodeG s.nodes nid (some { text := t, level := n.level.getD 0 }) }
            rest

/-- The edge loop of `load_from_dict`: `e["source"]` then `e["target"]` may
raise `KeyError`; `G.add_edge` silently creates missing endpoints. -/
def loadEdges : Store → List DocEdge → Store × Option String
  | s, [] => (s, none)
  | s, e :: rest =>
    match e.source with
    | none => (s, some "KeyError: source")
    | some u =>
      match e.target with
      | none => (s, some "KeyError: target")
      | some v => loadEdges (addEdgeG s u v) rest

/-- `load_from_dict(data)` from `app.py`: `G.clear()` first, then the three
scalars via `data.get` (defaults 0 / `None` / `None`), then the node loop,
then the edge loop.  Returns the store as left by the call (also when it
raises) and the raised error, if any. -/
def load_from_dict (_s : Store) (d : Doc) : Store × Option String :=
  let s0 : Store :=
    { nodes := []
      edges := []
      id_counter := d.id_counter.getD 0
      root_id := d.root_id
      current_id := d.current_id }
  match loadNodes s0 (d.nodes.getD []) with
  | (s1, some err) => (s1, some err)
  | (s1, none) => loadEdges s1 (d.edges.getD [])

/-- Break one word into `width`-column chunks (Python `textwrap`
`break_long_words=True` behaviour, without the hyphen-aware refinement). -/
def breakWord (width : Nat) (w : String) : List String :=
  (w.toList.toChunks (max width 1)).map List.asString

/-- Greedily fill lines of at most `width` columns from a list of words
(each already at most `width` long), joining words by single spaces.
Modelled from the spec: `textwrap` is the Python standard library, not part
of `src/`; the spec describes the label as "text word-wrapped to a fixed
column width (default 26)". -/
def fillLines (width : Nat) : List String → String → List String
  | [], acc => [acc]
  | w :: ws, acc =>
      if acc = "" then fillLines width ws w
      else if acc.length + 1 + w.length ≤ width then
        fillLines width ws (acc ++ " " ++ w)
      else
        acc :: fillLines width ws w

/-- Split a character list into its maximal whitespace-free words (the
accumulator holds the current word reversed). -/
def wordsAux : List Char → List Char → List String
  | [], acc => if acc = [] then [] else [acc.reverse.asString]
  | c :: cs, acc =>
      if c.isWhitespace then
        if acc = [] then wordsAux cs []
        else acc.reverse.asString :: wordsAux cs []
      else wordsAux cs (c :: acc)

/-- Python `textwrap.wrap(s, width)` (modelled from the spec, see
`fillLines`): split on whitespace, break words longer than `width`, greedily
fill lines; an empty or whitespace-only input yields no lines. -/
def textwrap_wrap (s : String) (width : Nat) : List String :=
  let ws := (wordsAux s.toList []).flatMap (breakWord width)
  (fillLines width ws "").filter (fun l => l ≠ "")

/-- `wrap_label(s, width)` from `app.py`: join the wrapped lines with
newlines; an empty (falsy) string maps to `""`. -/
def wrap_label (s : String) (width : Nat) : String :=
  if s = "" then "" else String.intercalate "\n" (textwrap_wrap s width)

/-- One node of the render projection handed to the visualization widget
(`net.add_node` call in `app.py`). -/
structure RenderNode where
  id : Int
  label : String
  title : String
  shape : String
  borderWidth : Nat
deriving DecidableEq, Repr

/-- The node loop of the render section of `app.py` (lines 220–226): for
each graph node read its `data` (a `KeyError`, modelled `none`, when
absent), wrap the text at width 26, build the tooltip
`"ID: <id> | Level: <level>"`, shape `box`, border 3 for the current node
and 1 otherwise. -/
def project (s : Store) : Option (List RenderNode) :=
  s.nodes.mapM (fun p =>
    match p.2 with
    | some nd =>
        some
          { id := p.1
            label := wrap_label nd.text 26
            title := "ID: " ++ toString p.1 ++ " | Level: " ++ toString nd.level
            shape := "box"
            borderWidth := if s.current_id = some p.1 then 3 else 1 }
    | none => none)

/-- One user edit operation of the app (the operations reachable stores are
built from). -/
inductive EditOp where
  | setRoot (t : String)
  | addAbove (c : Int) (t : String)
  | addBelow (c : Int) (t : String)
  | editText (i : Int) (t : String)
  | deleteNode (i : Int)
deriving DecidableEq, Repr

/-- Apply one edit operation; `none` models the Python `KeyError` raised by
`add_above` / `add_below` / edit-text on an id that is absent (or has no
`data`).  Also returns the list of node ids issued by the operation. -/
def applyOp (s : Store) : EditOp → Option (Store × List Int)
  | .setRoot t => some (set_root s t, [s.id_counter])
  | .addAbove c t => (add_above s c t true).map (fun r => (r.1, [r.2]))
  | .addBelow c t => (add_below s c t true).map (fun r => (r.1, [r.2]))
  | .editText i t => (edit_text s i t).map (fun s2 => (s2, []))
  | .deleteNode i => some (delete_node s i, [])

/-- Run a list of edit operations from a store, collecting every issued node
id in order; `none` as soon as one operation raises. -/
def runOps (s : Store) : List EditOp → Option (Store × List Int)
  | [] => some (s, [])
  | op :: rest =>
    (applyOp s op).bind (fun q => (runOps q.1 rest).map (fun r => (r.1, q.2 ++ r.2)))

/-- Number of `add_node` calls a list of edit operations performs (one for
each `set_root` / `add_above` / `add_below`). -/
def countAdds (ops : List EditOp) : Nat :=
  ops.countP (fun op =>
    match op with
    | .setRoot _ => true
    | .addAbove _ _ => true
    | .addBelow _ _ => true
    | _ => false)

/-- The stores reachable from the empty store by finite sequences of the
edit operations (`set_root`, `add_above`, `add_below`, edit-text,
`delete_node`). -/
inductive Reachable : Store → Prop where
  | init : Reachable initState
  | setRoot {s : Store} (t : String) : Reachable s → Reachable (set_root s t)
  | addAbove {s s2 : Store} {c : Int} {t : String} {mv : Bool} {n : Int} :
      Reachable s → add_above s c t mv = some (s2, n) → Reachable s2
  | addBelow {s s2 : Store} {c : Int} {t : String} {mv : Bool} {n : Int} :
      Reachable s → add_below s c t mv = some (s2, n) → Reachable s2
  | editText {s s2 : Store} {i : Int} {t : String} :
      Reachable s → edit_text s i t = some s2 → Reachable s2
  | deleteNode {s : Store} (i : Int) : Reachable s → Reachable (delete_node s i)

/-! Basic lemmas on the graph primitives. -/

/-- The document node entry `to_dict` writes for a graph node. -/
def docNodeOfEntry (p : Int × Option NodeData) : DocNode :=
  { id := some p.1, text := p.2.map NodeData.text, level := p.2.map NodeData.level }

/-- A syntactically valid document whose node entries are listed out of id
order — the program itself builds such a store via JSON import. -/
def docBad : Doc :=
  { nodes := some
      [ { id := some 3, text := some "a", level := some 0 }
      , { id := some 5, text := some "b", level := some 0 }
      , { id := some 2, text := some "c", level := some 0 } ]
    edges := some []
    current_id := some 3
    root_id := none
    id_counter := some 6 }

/-- The store the program builds from `docBad`. -/
def sBad : Store := (load_from_dict initState docBad).1

/-- A syntactically valid document whose second node entry lacks the
`text` key, so its import raises `KeyError` halfway through the node loop. -/
def docFail : Doc :=
  { nodes := some
      [ { id := some 0, text := some "a", level := some 0 }
      , { id := some 1, text := none, level := none } ]
    edges := some []
    current_id := some 9
    root_id := some 9
    id_counter := some 42 }

/-- The edit-operation sequence used by the C8 witness: root, add-above,
delete, add-below — three `add_node` calls in total. -/
def opsW : List EditOp :=
  [EditOp.setRoot "a", EditOp.addAbove 0 "b", EditOp.deleteNode 0, EditOp.addBelow 1 "c"]

/-- A syntactically valid document whose edge list references id 7, which
appears in no node entry. -/
def docDangle : Doc :=
  { nodes := some [{ id := some 0, text := some "a", level := some 0 }]
    edges := some [{ source := some 0, target := some 7 }]
    current_id := none
    root_id := none
    id_counter := some 1 }

/-- The invariant maintained by the edit operations: node ids are listed in
strictly increasing (insertion) order, every node carries its `data`
attribute, edges are duplicate-free with both endpoints present, and every
node id is below `id_counter`. -/
structure StoreInv (s : Store) : Prop where
  sortedIds : (s.nodes.map Prod.fst).Sorted (· < ·)
  dataAll : ∀ p ∈ s.nodes, p.2.isSome = true
  edgesNodup : s.edges.Nodup
  edgeEnds : ∀ e ∈ s.edges, e.1 ∈ s.nodes.map Prod.fst ∧ e.2 ∈ s.nodes.map Prod.fst
  idsLt : ∀ p ∈ s.nodes, p.1 < s.id_counter

theorem hasNode_iff {s : Store} {i : Int} :
    hasNode s i = true ↔ i ∈ s.nodes.map Prod.fst := by
  constructor
  · intro h
    rcases List.any_eq_true.mp h with ⟨p, hp, hpi⟩
    simp only [beq_iff_eq] at hpi
    exact hpi ▸ List.mem_map_of_mem Prod.fst hp
  · intro h
    rcases List.mem_map.mp h with ⟨p, hp, hpi⟩
    exact List.any_eq_true.mpr ⟨p, hp, by simp [hpi]⟩

theorem getNode_mem {s : Store} {i : Int} {o : Option NodeData}
    (h : getNode s i = some o) : i ∈ s.nodes.map Prod.fst := by
  rcases Option.map_eq_some'.mp h with ⟨p, hp, _⟩
  have h1 := List.find?_some hp
  have h2 := List.mem_of_find?_eq_some hp
  simp only [beq_iff_eq] at h1
  exact h1 ▸ List.mem_map_of_mem Prod.fst h2

theorem addNodeG_of_not_mem {ns : List (Int × Option NodeData)} {i : Int}
    {d : Option NodeData} (h : i ∉ ns.map Prod.fst) :
    addNodeG ns i d = ns ++ [(i, d)] := by
  have : ns.any (fun p => p.1 == i) = false := by
    simp only [List.any_eq_false, beq_iff_eq]
    intro p hp hpi
    exact h (hpi ▸ List.mem_map_of_mem Prod.fst hp)
  simp [addNodeG, this]

theorem ensureNode_of_mem {ns : List (Int × Option NodeData)} {i : Int}
    (h : i ∈ ns.map Prod.fst) : ensureNode ns i = ns := by
  have : ns.any (fun p => p.1 == i) = true := by
    rcases List.mem_map.mp h with ⟨p, hp, hpi⟩
    exact List.any_eq_true.mpr ⟨p, hp, by simp [hpi]⟩
  simp [ensureNode, this]

theorem getNode_append_right {ns : List (Int × Option NodeData)} {i : Int}
    {d : Option NodeData} (h : i ∉ ns.map Prod.fst) :
    (ns ++ [(i, d)]).find? (fun p => p.1 == i) = some (i, d) := by
  induction ns with
  | nil => simp [List.find?]
  | cons p rest ih =>
      simp only [List.map_cons, List.mem_cons] at h
      push_neg at h
      have hne : (p.1 == i) = false := by simp [Ne.symm h.1]
      simp [List.find?, hne, ih h.2]

theorem StoreInv.nodupIds {s : Store} (h : StoreInv s) : (s.nodes.map Prod.fst).Nodup :=
  h.sortedIds.nodup

theorem StoreInv.freshId {s : Store} (h : StoreInv s) : s.id_counter ∉ s.nodes.map Prod.fst := by
  intro hm
  rcases List.mem_map.mp hm with ⟨p, hp, hpi⟩
  exact absurd (hpi ▸ h.idsLt p hp) (lt_irrefl _)

theorem StoreInv.freshEdgeSrc {s : Store} (h : StoreInv s) (c : Int) :
    (s.id_counter, c) ∉ s.edges := by
  intro hm
  exact h.freshId (h.edgeEnds _ hm).1

theorem StoreInv.freshEdgeTgt {s : Store} (h : StoreInv s) (c : Int) :
    (c, s.id_counter) ∉ s.edges := by
  intro hm
  exact h.freshId (h.edgeEnds _ hm).2

theorem add_node_eq {s : Store} (t : String) (l : Int)
    (h : s.id_counter ∉ s.nodes.map Prod.fst) :
    add_node s t l =
      ({ s with
          id_counter := s.id_counter + 1
          nodes := s.nodes ++ [(s.id_counter, some { text := t, level := l })] },
        s.id_counter) := by
  simp [add_node, addNodeG_of_not_mem h]

theorem set_root_eq {s : Store} (t : String)
    (h : s.id_counter ∉ s.nodes.map Prod.fst) :
    set_root s t =
      { nodes := s.nodes ++ [(s.id_counter, some { text := t, level := 0 })]
        edges := s.edges
        id_counter := s.id_counter + 1
        root_id := some s.id_counter
        current_id := some s.id_counter } := by
  simp [set_root, add_node_eq t 0 h]

theorem add_above_eq {s : Store} {c : Int} {nd : NodeData} (t : String) (mv : Bool)
    (hc : getNode s c = some (some nd))
    (hfr : s.id_counter ∉ s.nodes.map Prod.fst)
    (hne : (s.id_counter, c) ∉ s.edges) :
    add_above s c t mv =
      some
        ({ nodes := s.nodes ++ [(s.id_counter, some { text := t, level := nd.level + 1 })]
           edges := s.edges ++ [(s.id_counter, c)]
           id_counter := s.id_counter + 1
           root_id := s.root_id
           current_id := if mv then some s.id_counter else s.current_id },
          s.id_counter) := by
  have hcm : c ∈ s.nodes.map Prod.fst := getNode_mem hc
  have h1 : c ∈ (s.nodes ++ [(s.id_counter, some ({ text := t, level := nd.level + 1 } : NodeData))]).map Prod.fst := by
    simp only [List.map_append, List.mem_append]
    exact Or.inl hcm
  have h2 : s.id_counter ∈ (s.nodes ++ [(s.id_counter, some ({ text := t, level := nd.level + 1 } : NodeData))]).map Prod.fst := by
    simp
  rw [add_above, hc]
  simp only [add_node_eq t (nd.level + 1) hfr, addEdgeG,
    ensureNode_of_mem h2, ensureNode_of_mem h1, if_neg hne]
  cases mv <;> simp

theorem add_below_eq {s : Store} {c : Int} {nd : NodeData} (t : String) (mv : Bool)
    (hc : getNode s c = some (some nd))
    (hfr : s.id_counter ∉ s.nodes.map Prod.fst)
    (hne : (c, s.id_counter) ∉ s.edges) :
    add_below s c t mv =
      some
        ({ nodes := s.nodes ++ [(s.id_counter, some { text := t, level := nd.level - 1 })]
           edges := s.edges ++ [(c, s.id_counter)]
           id_counter := s.id_counter + 1
           root_id := s.root_id
           current_id := if mv then some s.id_counter else s.current_id },
          s.id_counter) := by
  have hcm : c ∈ s.nodes.map Prod.fst := getNode_mem hc
  have h1 : s.id_counter ∈ (s.nodes ++ [(s.id_counter, some ({ text := t, level := nd.level - 1 } : NodeData))]).map Prod.fst := by
    simp
  have h2 : c ∈ (s.nodes ++ [(s.id_counter, some ({ text := t, level := nd.level - 1 } : NodeData))]).map Prod.fst := by
    simp only [List.map_append, List.mem_append]
    exact Or.inl hcm
  rw [add_below, hc]
  simp only [add_node_eq t (nd.level - 1) hfr, addEdgeG,
    ensureNode_of_mem h1, ensureNode_of_mem h2, if_neg hne]
  cases mv <;> simp

theorem StoreInv.idsLtMap {s : Store} (h : StoreInv s) :
    ∀ y ∈ s.nodes.map Prod.fst, y < s.id_counter := by
  intro y hy
  rcases List.mem_map.mp hy with ⟨p, hp, rfl⟩
  exact h.idsLt p hp

theorem sorted_append_one {l : List Int} {x : Int}
    (h : l.Sorted (· < ·)) (hx : ∀ y ∈ l, y < x) : (l ++ [x]).Sorted (· < ·) := by
  rw [List.Sorted, List.pairwise_append]
  exact ⟨h, List.pairwise_singleton _ _, by simpa using hx⟩

theorem map_fst_filter_ne (ns : List (Int × Option NodeData)) (i : Int) :
    (ns.filter (fun p => ¬ p.1 == i)).map Prod.fst
      = (ns.map Prod.fst).filter (fun x => ¬ x == i) := by
  induction ns with
  | nil => rfl
  | cons p rest ih =>
      by_cases hp : p.1 = i
      · simpa [List.filter_cons, hp] using ih
      · simpa [List.filter_cons, hp] using ih

theorem storeInv_init : StoreInv initState := by
  constructor <;> simp [initState]

theorem storeInv_set_root {s : Store} (h : StoreInv s) (t : String) :
    StoreInv (set_root s t) := by
  rw [set_root_eq t h.freshId]
  constructor
  · simpa using sorted_append_one h.sortedIds h.idsLtMap
  · intro p hp
    rcases List.mem_append.mp hp with hp | hp
    · exact h.dataAll p hp
    · simp only [List.mem_singleton] at hp
      simp [hp]
  · exact h.edgesNodup
  · intro e he
    have := h.edgeEnds e he
    simp only [List.map_append, List.mem_append]
    exact ⟨Or.inl this.1, Or.inl this.2⟩
  · intro p hp
    rcases List.mem_append.mp hp with hp | hp
    · exact lt_trans (h.idsLt p hp) (lt_add_one s.id_counter)
    · simp only [List.mem_singleton] at hp
      simp [hp]

theorem storeInv_add_above {s s2 : Store} {c : Int} {t : String} {mv : Bool} {n : Int}
    (h : StoreInv s) (hr : add_above s c t mv = some (s2, n)) : StoreInv s2 := by
  rcases hg : getNode s c with _ | o
  · rw [add_above, hg] at hr
    exact absurd hr (by simp)
  rcases o with _ | nd
  · rw [add_above, hg] at hr
    exact absurd hr (by simp)
  rw [add_above_eq t mv hg h.freshId (h.freshEdgeSrc c)] at hr
  have hs2 : s2 =
      { nodes := s.nodes ++ [(s.id_counter, some { text := t, level := nd.level + 1 })]
        edges := s.edges ++ [(s.id_counter, c)]
        id_counter := s.id_counter + 1
        root_id := s.root_id
        current_id := if mv then some s.id_counter else s.current_id } := by
    injection hr with h1
    injection h1 with h2 h3
    exact h2.symm
  subst hs2
  have hcm : c ∈ s.nodes.map Prod.fst := getNode_mem hg
  constructor
  · simpa using sorted_append_one h.sortedIds h.idsLtMap
  · intro p hp
    rcases List.mem_append.mp hp with hp | hp
    · exact h.dataAll p hp
    · simp only [List.mem_singleton] at hp
      simp [hp]
  · rw [List.nodup_append]
    exact ⟨h.edgesNodup, List.nodup_singleton _,
      List.disjoint_singleton.mpr (h.freshEdgeSrc c)⟩
  · intro e he
    simp only [List.map_append, List.mem_append]
    rcases List.mem_append.mp he with he | he
    · have := h.edgeEnds e he
      exact ⟨Or.inl this.1, Or.inl this.2⟩
    · simp only [List.mem_singleton] at he
      subst he
      exact ⟨Or.inr (by simp), Or.inl hcm⟩
  · intro p hp
    rcases List.mem_append.mp hp with hp | hp
    · exact lt_trans (h.idsLt p hp) (lt_add_one s.id_counter)
    · simp only [List.mem_singleton] at hp
      simp [hp]

theorem storeInv_add_below {s s2 : Store} {c : Int} {t : String} {mv : Bool} {n : Int}
    (h : StoreInv s) (hr : add_below s c t mv = some (s2, n)) : StoreInv s2 := by
  rcases hg : getNode s c with _ | o
  · rw [add_below, hg] at hr
    exact absurd hr (by simp)
  rcases o with _ | nd
  · rw [add_below, hg] at hr
    exact absurd hr (by simp)
  rw [add_below_eq t mv hg h.freshId (h.freshEdgeTgt c)] at hr
  have hs2 : s2 =
      { nodes := s.nodes ++ [(s.id_counter, some { text := t, level := nd.level - 1 })]
        edges := s.edges ++ [(c, s.id_counter)]
        id_counter := s.id_counter + 1
        root_id := s.root_id
        current_id := if mv then some s.id_counter else s.current_id } := by
    injection hr with h1
    injection h1 with h2 h3
    exact h2.symm
  subst hs2
  have hcm : c ∈ s.nodes.map Prod.fst := getNode_mem hg
  constructor
  · simpa using sorted_append_one h.sortedIds h.idsLtMap
  · intro p hp
    rcases List.mem_append.mp hp with hp | hp
    · exact h.dataAll p hp
    · simp only [List.mem_singleton] at hp
      simp [hp]
  · rw [List.nodup_append]
    exact ⟨h.edgesNodup, List.nodup_singleton _,
      List.disjoint_singleton.mpr (h.freshEdgeTgt c)⟩
  · intro e he
    simp only [List.map_append, List.mem_append]
    rcases List.mem_append.mp he with he | he
    · have := h.edgeEnds e he
      exact ⟨Or.inl this.1, Or.inl this.2⟩
    · simp only [List.mem_singleton] at he
      subst he
      exact ⟨Or.inl hcm, Or.inr (by simp)⟩
  · intro p hp
    rcases List.mem_append.mp hp with hp | hp
    · exact lt_trans (h.idsLt p hp) (lt_add_one s.id_counter)
    · simp only [List.mem_singleton] at hp
      simp [hp]

theorem map_fst_update (ns : List (Int × Option NodeData)) (i : Int) (d : Option NodeData) :
    (ns.map (fun p => if p.1 == i then (i, d) else p)).map Prod.fst = ns.map Prod.fst := by
  induction ns with
  | nil => rfl
  | cons p rest ih =>
      by_cases hp : p.1 = i
      · simp [hp, ih]
        intro a b _
        by_cases ha : a = i
        · simp [ha]
        · simp [ha]
      · simp [hp, ih]
        intro a b _
        by_cases ha : a = i
        · simp [ha]
        · simp [ha]

theorem storeInv_edit_text {s s2 : Store} {i : Int} {t : String}
    (h : StoreInv s) (hr : edit_text s i t = some s2) : StoreInv s2 := by
  rcases hg : getNode s i with _ | o
  · rw [edit_text, hg] at hr
    exact absurd hr (by simp)
  rcases o with _ | nd
  · rw [edit_text, hg] at hr
    exact absurd hr (by simp)
  rw [edit_text, hg] at hr
  injection hr with h1
  subst h1
  constructor
  · rw [map_fst_update]
    exact h.sortedIds
  · intro p hp
    rcases List.mem_map.mp hp with ⟨q, hq, rfl⟩
    by_cases hqi : q.1 = i
    · simp [hqi]
    · simp only [hqi, beq_iff_eq, if_neg]
      exact h.dataAll q hq
  · exact h.edgesNodup
  · intro e he
    rw [map_fst_update]
    exact h.edgeEnds e he
  · intro p hp
    rcases List.mem_map.mp hp with ⟨q, hq, rfl⟩
    by_cases hqi : q.1 = i
    · simpa [hqi] using hqi ▸ h.idsLt q hq
    · simp only [hqi, beq_iff_eq, if_neg]
      exact h.idsLt q hq

theorem delete_node_id_counter (s : Store) (i : Int) :
    (delete_node s i).id_counter = s.id_counter := by
  rw [delete_node]
  split_ifs <;> rfl

theorem delete_node_nodes {s : Store} {i : Int} (h : hasNode s i = true) :
    (delete_node s i).nodes = s.nodes.filter (fun p => ¬ p.1 == i) := by
  rw [delete_node, if_pos h]
  split_ifs <;> rfl

theorem delete_node_edges {s : Store} {i : Int} (h : hasNode s i = true) :
    (delete_node s i).edges = s.edges.filter (fun e => ¬ e.1 == i ∧ ¬ e.2 == i) := by
  rw [delete_node, if_pos h]
  split_ifs <;> rfl

theorem storeInv_delete {s : Store} (h : StoreInv s) (i : Int) :
    StoreInv (delete_node s i) := by
  by_cases hn : hasNode s i = true
  · constructor
    · rw [delete_node_nodes hn, map_fst_filter_ne]
      exact h.sortedIds.filter _
    · intro p hp
      rw [delete_node_nodes hn] at hp
      exact h.dataAll p (List.mem_of_mem_filter hp)
    · rw [delete_node_edges hn]
      exact h.edgesNodup.filter _
    · intro e he
      rw [delete_node_edges hn] at he
      rw [delete_node_nodes hn, map_fst_filter_ne]
      rw [List.mem_filter] at he
      have hends := h.edgeEnds e he.1
      have hpred : ¬ e.1 = i ∧ ¬ e.2 = i := by simpa using he.2
      constructor
      · rw [List.mem_filter]
        exact ⟨hends.1, by simpa using hpred.1⟩
      · rw [List.mem_filter]
        exact ⟨hends.2, by simpa using hpred.2⟩
    · intro p hp
      rw [delete_node_nodes hn] at hp
      rw [delete_node_id_counter]
      exact h.idsLt p (List.mem_of_mem_filter hp)
  · rw [delete_node, if_neg hn]
    exact h

theorem reachable_storeInv {s : Store} (h : Reachable s) : StoreInv s := by
  induction h with
  | init => exact storeInv_init
  | setRoot t _ ih => exact storeInv_set_root ih t
  | addAbove _ hr ih => exact storeInv_add_above ih hr
  | addBelow _ hr ih => exact storeInv_add_below ih hr
  | editText _ hr ih => exact storeInv_edit_text ih hr
  | deleteNode i _ ih => exact storeInv_delete ih i

theorem mapM_toDocNode {ns : List (Int × Option NodeData)}
    (h : ∀ p ∈ ns, p.2.isSome = true) :
    (ns.mapM (fun p =>
      match p.2 with
      | some nd =>
          Except.ok { id := some p.1, text := some nd.text, level := some nd.level }
      | none => (Except.error "KeyError: data" : Except String DocNode)))
      = Except.ok (ns.map docNodeOfEntry) := by
  induction ns with
  | nil => rfl
  | cons p rest ih =>
      rcases hp : p.2 with _ | nd
      · have hc := h p (List.mem_cons_self p rest)
        rw [hp] at hc
        simp at hc
      · rw [List.mapM_cons, hp, ih (fun q hq => h q (List.mem_cons_of_mem p hq))]
        simp [docNodeOfEntry, hp]
        rfl

theorem to_dict_ok {s : Store} (h : ∀ p ∈ s.nodes, p.2.isSome = true) :
    to_dict s = Except.ok
      { nodes := some (s.nodes.map docNodeOfEntry)
        edges := some ((edgesIter s).map (fun e => { source := some e.1, target := some e.2 }))
        current_id := s.current_id
        root_id := s.root_id
        id_counter := some s.id_counter } := by
  rw [to_dict, mapM_toDocNode h]
  rfl

theorem loadNodes_eq (a : Store) {ns : List (Int × Option NodeData)}
    (hd : ∀ p ∈ ns, p.2.isSome = true)
    (hfr : ∀ p ∈ ns, p.1 ∉ a.nodes.map Prod.fst)
    (hnn : (ns.map Prod.fst).Nodup) :
    loadNodes a (ns.map docNodeOfEntry) = ({ a with nodes := a.nodes ++ ns }, none) := by
  induction ns generalizing a with
  | nil => simp [loadNodes]
  | cons p rest ih =>
      rcases hp : p.2 with _ | nd
      · have hc := hd p (List.mem_cons_self p rest)
        rw [hp] at hc
        simp at hc
      · have hstep :
            loadNodes a (docNodeOfEntry p :: rest.map docNodeOfEntry)
              = loadNodes
                  { a with nodes := a.nodes ++ [(p.1, some nd)] }
                  (rest.map docNodeOfEntry) := by
          simp only [loadNodes, docNodeOfEntry, hp, Option.map_some', Option.getD_some]
          rw [addNodeG_of_not_mem (hfr p (List.mem_cons_self p rest))]
        rw [List.map_cons, hstep]
        rw [List.map_cons] at hnn
        have hnn2 := List.nodup_cons.mp hnn
        have ih2 := ih (fun q hq => hd q (List.mem_cons_of_mem p hq))
          (a := { a with nodes := a.nodes ++ [(p.1, some nd)] })
          (fun q hq => by
            simp only [List.map_append, List.mem_append]
            intro hmem
            rcases hmem with hmem | hmem
            · exact hfr q (List.mem_cons_of_mem p hq) hmem
            · simp only [List.map_cons, List.map_nil, List.mem_singleton] at hmem
              exact hnn2.1 (hmem ▸ List.mem_map_of_mem Prod.fst hq))
          hnn2.2
        rw [ih2]
        have hpe : p = (p.1, some nd) := by
          rw [← hp]
        rw [List.append_assoc, List.singleton_append, ← hpe]

theorem loadEdges_eq (a : Store) {es : List (Int × Int)}
    (hsrc : ∀ e ∈ es, e.1 ∈ a.nodes.map Prod.fst)
    (htgt : ∀ e ∈ es, e.2 ∈ a.nodes.map Prod.fst)
    (hnew : ∀ e ∈ es, e ∉ a.edges)
    (hnd : es.Nodup) :
    loadEdges a (es.map (fun e => { source := some e.1, target := some e.2 }))
      = ({ a with edges := a.edges ++ es }, none) := by
  induction es generalizing a with
  | nil => simp [loadEdges]
  | cons e rest ih =>
      have hstep :
          loadEdges a
              ({ source := some e.1, target := some e.2 } :: rest.map (fun e => { source := some e.1, target := some e.2 }))
            = loadEdges { a with edges := a.edges ++ [e] } (rest.map (fun e => { source := some e.1, target := some e.2 })) := by
        simp only [loadEdges, addEdgeG]
        rw [ensureNode_of_mem (hsrc e (List.mem_cons_self e rest)),
          ensureNode_of_mem (htgt e (List.mem_cons_self e rest))]
        have : (e.1, e.2) = e := rfl
        rw [this, if_neg (hnew e (List.mem_cons_self e rest))]
      rw [List.map_cons, hstep]
      have hnd2 := List.nodup_cons.mp hnd
      have ih2 := ih (a := { a with edges := a.edges ++ [e] })
        (fun q hq => hsrc q (List.mem_cons_of_mem e hq))
        (fun q hq => htgt q (List.mem_cons_of_mem e hq))
        (fun q hq => by
          simp only [List.mem_append, List.mem_singleton]
          intro hmem
          rcases hmem with hmem | hmem
          · exact hnew q (List.mem_cons_of_mem e hq) hmem
          · exact hnd2.1 (hmem ▸ hq))
        hnd2.2
      rw [ih2, List.append_assoc, List.singleton_append]

theorem mem_edgesIter {s : Store}
    (hsrc : ∀ e ∈ s.edges, e.1 ∈ s.nodes.map Prod.fst) (e : Int × Int) :
    e ∈ edgesIter s ↔ e ∈ s.edges := by
  constructor
  · intro h
    rcases List.mem_flatMap.mp h with ⟨p, _, he⟩
    exact (List.mem_filter.mp he).1
  · intro h
    rcases List.mem_map.mp (hsrc e h) with ⟨p, hp, hpe⟩
    exact List.mem_flatMap.mpr ⟨p, hp, List.mem_filter.mpr ⟨h, by simp [hpe]⟩⟩

theorem edgesIter_nodup {s : Store} (hids : (s.nodes.map Prod.fst).Nodup)
    (hend : s.edges.Nodup) : (edgesIter s).Nodup := by
  rw [edgesIter, List.nodup_flatMap]
  constructor
  · intro p _
    exact hend.filter _
  · have hpw : s.nodes.Pairwise (fun a b => a.1 ≠ b.1) := List.pairwise_map.mp hids
    refine hpw.imp ?_
    intro a b hab
    intro x hxa hxb
    have h1 := (List.mem_filter.mp hxa).2
    have h2 := (List.mem_filter.mp hxb).2
    simp only [beq_iff_eq, decide_eq_true_eq] at h1 h2
    exact hab (h1 ▸ h2)

theorem edgesIter_subset {s : Store} : ∀ e ∈ edgesIter s, e ∈ s.edges := by
  intro e he
  rcases List.mem_flatMap.mp he with ⟨p, _, hf⟩
  exact (List.mem_filter.mp hf).1

theorem load_from_dict_step {s : Store} {d : Doc} {u : Store}
    (h : loadNodes
        { nodes := [], edges := [], id_counter := d.id_counter.getD 0
          root_id := d.root_id, current_id := d.current_id }
        (d.nodes.getD []) = (u, none)) :
    load_from_dict s d = loadEdges u (d.edges.getD []) := by
  rw [load_from_dict, h]

/-- C1: for every store reachable from the empty store by a finite sequence
of the edit operations, `load_from_dict (to_dict S)` rebuilds a store
structurally equal to `S`: an identical node list (hence the same node set
with the same text and level per id), the same edge set, and equal
`current_id`, `root_id` and `id_counter` (the edge list is re-ordered into
`G.edges` iteration order, so edges coincide as sets, exactly as the claim
asks). -/
theorem load_to_dict_roundTrip (s : Store) (h : Reachable s) :
    ∃ d : Doc, to_dict s = Except.ok d ∧
      (load_from_dict s d).2 = none ∧
      (load_from_dict s d).1.nodes = s.nodes ∧
      (∀ e, e ∈ (load_from_dict s d).1.edges ↔ e ∈ s.edges) ∧
      (load_from_dict s d).1.current_id = s.current_id ∧
      (load_from_dict s d).1.root_id = s.root_id ∧
      (load_from_dict s d).1.id_counter = s.id_counter := by
  have inv := reachable_storeInv h
  refine ⟨_, to_dict_ok inv.dataAll, ?_⟩
  have hn : loadNodes
      { nodes := [], edges := [], id_counter := (some s.id_counter).getD 0
        root_id := s.root_id, current_id := s.current_id }
      ((some (s.nodes.map docNodeOfEntry)).getD [])
      = ({ nodes := s.nodes, edges := [], id_counter := s.id_counter
           root_id := s.root_id, current_id := s.current_id }, none) := by
    rw [Option.getD_some, Option.getD_some,
      loadNodes_eq _ inv.dataAll (by simp) inv.nodupIds]
    simp
  have hstep := load_from_dict_step (s := s)
    (d := { nodes := some (s.nodes.map docNodeOfEntry)
            edges := some ((edgesIter s).map (fun e => { source := some e.1, target := some e.2 }))
            current_id := s.current_id
            root_id := s.root_id
            id_counter := some s.id_counter })
    (u := { nodes := s.nodes, edges := [], id_counter := s.id_counter
            root_id := s.root_id, current_id := s.current_id })
    hn
  have he : loadEdges
      { nodes := s.nodes, edges := [], id_counter := s.id_counter
        root_id := s.root_id, current_id := s.current_id }
      ((some ((edgesIter s).map (fun e => { source := some e.1, target := some e.2 }))).getD [])
      = ({ nodes := s.nodes, edges := edgesIter s, id_counter := s.id_counter
           root_id := s.root_id, current_id := s.current_id }, none) := by
    rw [Option.getD_some,
      loadEdges_eq
        { nodes := s.nodes, edges := [], id_counter := s.id_counter
          root_id := s.root_id, current_id := s.current_id }
        (fun e hme => (inv.edgeEnds e (edgesIter_subset e hme)).1)
        (fun e hme => (inv.edgeEnds e (edgesIter_subset e hme)).2)
        (fun e _ => by simp)
        (edgesIter_nodup inv.nodupIds inv.edgesNodup)]
    simp
  have hfull : load_from_dict s
      { nodes := some (s.nodes.map docNodeOfEntry)
        edges := some ((edgesIter s).map (fun e => { source := some e.1, target := some e.2 }))
        current_id := s.current_id
        root_id := s.root_id
        id_counter := some s.id_counter }
      = ({ nodes := s.nodes, edges := edgesIter s, id_counter := s.id_counter
           root_id := s.root_id, current_id := s.current_id }, none) := by
    rw [hstep]
    exact he
  rw [hfull]
  refine ⟨rfl, rfl, ?_, rfl, rfl, rfl⟩
  intro e
  exact mem_edgesIter (fun e2 he2 => (inv.edgeEnds e2 he2).1) e

theorem getNode_append {s : Store} {i : Int} {d : Option NodeData}
    (h : i ∉ s.nodes.map Prod.fst) (es : List (Int × Int)) (c r : Option Int) (k : Int) :
    getNode { nodes := s.nodes ++ [(i, d)], edges := es, id_counter := k
              root_id := r, current_id := c } i = some d := by
  rw [getNode]
  rw [show ({ nodes := s.nodes ++ [(i, d)], edges := es, id_counter := k
              root_id := r, current_id := c } : Store).nodes = s.nodes ++ [(i, d)] from rfl]
  rw [getNode_append_right h]
  rfl

theorem add_above_sets {s : Store} {c : Int} {nd : NodeData} (t : String)
    (hc : getNode s c = some (some nd))
    (hfr : s.id_counter ∉ s.nodes.map Prod.fst) :
    add_above s c t true = some
      ({ nodes := s.nodes ++ [(s.id_counter, some { text := t, level := nd.level + 1 })]
         edges := if (s.id_counter, c) ∈ s.edges then s.edges else s.edges ++ [(s.id_counter, c)]
         id_counter := s.id_counter + 1
         root_id := s.root_id
         current_id := some s.id_counter }, s.id_counter) := by
  have hcm : c ∈ s.nodes.map Prod.fst := getNode_mem hc
  have h1 : c ∈ (s.nodes ++ [(s.id_counter, some ({ text := t, level := nd.level + 1 } : NodeData))]).map Prod.fst := by
    simp only [List.map_append, List.mem_append]
    exact Or.inl hcm
  have h2 : s.id_counter ∈ (s.nodes ++ [(s.id_counter, some ({ text := t, level := nd.level + 1 } : NodeData))]).map Prod.fst := by
    simp
  rw [add_above, hc]
  simp only [add_node_eq t (nd.level + 1) hfr, addEdgeG,
    ensureNode_of_mem h2, ensureNode_of_mem h1, if_true]

theorem add_below_sets {s : Store} {c : Int} {nd : NodeData} (t : String)
    (hc : getNode s c = some (some nd))
    (hfr : s.id_counter ∉ s.nodes.map Prod.fst) :
    add_below s c t true = some
      ({ nodes := s.nodes ++ [(s.id_counter, some { text := t, level := nd.level - 1 })]
         edges := if (c, s.id_counter) ∈ s.edges then s.edges else s.edges ++ [(c, s.id_counter)]
         id_counter := s.id_counter + 1
         root_id := s.root_id
         current_id := some s.id_counter }, s.id_counter) := by
  have hcm : c ∈ s.nodes.map Prod.fst := getNode_mem hc
  have h1 : s.id_counter ∈ (s.nodes ++ [(s.id_counter, some ({ text := t, level := nd.level - 1 } : NodeData))]).map Prod.fst := by
    simp
  have h2 : c ∈ (s.nodes ++ [(s.id_counter, some ({ text := t, level := nd.level - 1 } : NodeData))]).map Prod.fst := by
    simp only [List.map_append, List.mem_append]
    exact Or.inl hcm
  rw [add_below, hc]
  simp only [add_node_eq t (nd.level - 1) hfr, addEdgeG,
    ensureNode_of_mem h1, ensureNode_of_mem h2, if_true]

/-- C2: in a store containing node `c` (with its data) and whose `id_counter`
is not an existing node id (the freshness invariant of every reachable
store), `add_above c t` creates a fresh node at `level(c) + 1` with edge
`(new, c)` and `add_below c t` creates a fresh node at `level(c) - 1` with
edge `(c, new)`; with `move_to_new` true, `current_id` moves to the new node
in both cases. -/
theorem addAbove_addBelow_levels (s : Store) (c : Int) (nd : NodeData) (t t2 : String)
    (hc : getNode s c = some (some nd))
    (hfr : hasNode s s.id_counter = false) :
    (∃ sA nA, add_above s c t true = some (sA, nA) ∧
      hasNode s nA = false ∧
      getNode sA nA = some (some { text := t, level := nd.level + 1 }) ∧
      (nA, c) ∈ sA.edges ∧
      sA.current_id = some nA) ∧
    (∃ sB nB, add_below s c t2 true = some (sB, nB) ∧
      hasNode s nB = false ∧
      getNode sB nB = some (some { text := t2, level := nd.level - 1 }) ∧
      (c, nB) ∈ sB.edges ∧
      sB.current_id = some nB) := by
  have hfr2 : s.id_counter ∉ s.nodes.map Prod.fst := by
    intro hm
    rw [hasNode_iff.mpr hm] at hfr
    exact absurd hfr (by simp)
  constructor
  · refine ⟨_, s.id_counter, add_above_sets t hc hfr2, hfr, ?_, ?_, rfl⟩
    · exact getNode_append hfr2 _ _ _ _
    · by_cases hin : (s.id_counter, c) ∈ s.edges
      · simp [hin]
      · simp [hin]
  · refine ⟨_, s.id_counter, add_below_sets t2 hc hfr2, hfr, ?_, ?_, rfl⟩
    · exact getNode_append hfr2 _ _ _ _
    · by_cases hin : (c, s.id_counter) ∈ s.edges
      · simp [hin]
      · simp [hin]

/-- Witness for C2: the hypotheses hold and the conclusion follows at the
one-node store `set_root initState "Q0"` with `c = 0`. -/
theorem addAbove_addBelow_levels_witness :
    (getNode (set_root initState "Q0") 0 = some (some { text := "Q0", level := 0 }) ∧
      hasNode (set_root initState "Q0") (set_root initState "Q0").id_counter = false) ∧
    ((∃ sA nA, add_above (set_root initState "Q0") 0 "a" true = some (sA, nA) ∧
      hasNode (set_root initState "Q0") nA = false ∧
      getNode sA nA = some (some { text := "a", level := (0 : Int) + 1 }) ∧
      (nA, 0) ∈ sA.edges ∧
      sA.current_id = some nA) ∧
    (∃ sB nB, add_below (set_root initState "Q0") 0 "b" true = some (sB, nB) ∧
      hasNode (set_root initState "Q0") nB = false ∧
      getNode sB nB = some (some { text := "b", level := (0 : Int) - 1 }) ∧
      (0, nB) ∈ sB.edges ∧
      sB.current_id = some nB)) :=
  ⟨⟨by decide, by decide⟩,
    addAbove_addBelow_levels (set_root initState "Q0") 0 { text := "Q0", level := 0 }
      "a" "b" (by decide) (by decide)⟩

/-- C3 counterexample: deleting an id absent from a non-empty store raises
no error at all — `delete_node` guards on `G.has_node` and silently returns
with the store unchanged, contradicting the claim that the operation fails
with `NotFoundError`. -/
theorem delete_node_absent_counterexample :
    hasNode (set_root initState "r") 99 = false ∧
    delete_node (set_root initState "r") 99 = set_root initState "r" := by
  constructor
  · decide
  · decide

/-- C3 (amended): for every id absent from the store, `delete_node` is a
silent no-op — it raises no error and leaves the store unmutated. -/
theorem delete_node_absent_noop (s : Store) (i : Int)
    (h : hasNode s i = false) : delete_node s i = s := by
  rw [delete_node, if_neg]
  simp [h]

/-- Witness for the amended C3 at a concrete store and absent id. -/
theorem delete_node_absent_noop_witness :
    hasNode (set_root initState "r") 5 = false ∧
    delete_node (set_root initState "r") 5 = set_root initState "r" :=
  ⟨by decide, delete_node_absent_noop (set_root initState "r") 5 (by decide)⟩

theorem delete_node_current_of_cur {s : Store} {i : Int} (hn : hasNode s i = true)
    (hcur : s.current_id = some i) :
    (delete_node s i).current_id
      = ((s.nodes.filter (fun p => ¬ p.1 == i)).head?).map Prod.fst := by
  simp only [delete_node, hn, hcur, if_true]
  split_ifs <;> simp [removeNodeG]

/-- C4 counterexample: in the store imported from `docBad` (nodes inserted
in order 3, 5, 2, current node 3), `delete_node 3` reassigns `current_id`
to 5 — the first remaining node in insertion order — even though node 2
remains and 2 < 5, so `current_id` is not the remaining node with the
minimum id. -/
theorem delete_node_current_counterexample :
    sBad.current_id = some 3 ∧
    hasNode sBad 3 = true ∧
    (delete_node sBad 3).current_id = some 5 ∧
    2 ∈ (delete_node sBad 3).nodes.map Prod.fst ∧
    (2 : Int) < 5 := by
  refine ⟨?_, ?_, ?_, ?_, ?_⟩ <;> decide

theorem sorted_head_min {l : List Int} (hs : l.Sorted (· < ·)) :
    ∀ m, l.head? = some m → ∀ j ∈ l, m ≤ j := by
  intro m hm j hj
  cases l with
  | nil => simp at hm
  | cons a rest =>
      simp only [List.head?_cons, Option.some.injEq] at hm
      subst hm
      rcases List.mem_cons.mp hj with hj | hj
      · exact le_of_eq hj.symm
      · exact le_of_lt (List.rel_of_sorted_cons hs j hj)

/-- C4 (amended): when the current node is deleted, `current_id` is
reassigned to `list(G.nodes)[0]` — the first remaining node in insertion
order, or null when the store becomes empty.  For every store reachable via
the edit operations the insertion order is increasing in id, so this is
exactly the remaining node with the minimum id, as the claim states; on a
store whose insertion order was scrambled by `load_from_dict` it can be a
non-minimal node (see the counterexample). -/
theorem delete_node_current_min (s : Store) (i : Int) (h : Reachable s)
    (hcur : s.current_id = some i) (hn : hasNode s i = true) :
    (delete_node s i).current_id = ((delete_node s i).nodes.head?).map Prod.fst ∧
    ((delete_node s i).current_id = none ↔ (delete_node s i).nodes = []) ∧
    (∀ m, (delete_node s i).current_id = some m →
      m ∈ (delete_node s i).nodes.map Prod.fst ∧
      ∀ j ∈ (delete_node s i).nodes.map Prod.fst, m ≤ j) := by
  have inv := reachable_storeInv h
  have hcf : (delete_node s i).current_id
      = ((delete_node s i).nodes.head?).map Prod.fst := by
    rw [delete_node_current_of_cur hn hcur, delete_node_nodes hn]
  have hsorted : ((delete_node s i).nodes.map Prod.fst).Sorted (· < ·) := by
    rw [delete_node_nodes hn, map_fst_filter_ne]
    exact inv.sortedIds.filter _
  have hhm : ((delete_node s i).nodes.map Prod.fst).head?
      = ((delete_node s i).nodes.head?).map Prod.fst := List.head?_map _ _
  refine ⟨hcf, ?_, ?_⟩
  · rw [hcf]
    constructor
    · intro hnone
      rcases hh : (delete_node s i).nodes.head? with _ | p
      · exact List.head?_eq_none_iff.mp hh
      · rw [hh] at hnone
        simp at hnone
    · intro hnil
      rw [hnil]
      rfl
  · intro m hm
    rw [hcf, ← hhm] at hm
    exact ⟨List.mem_of_mem_head? hm, sorted_head_min hsorted m hm⟩

/-- Witness for the amended C4: delete the current node (id 1) of the
two-node reachable store built by `set_root` then `add_above`; `current_id`
falls back to the remaining minimum id 0. -/
theorem delete_node_current_min_witness :
    (((add_above (set_root initState "r") 0 "x" true).getD (initState, 0)).1.current_id = some 1 ∧
      hasNode ((add_above (set_root initState "r") 0 "x" true).getD (initState, 0)).1 1 = true) ∧
    ((delete_node ((add_above (set_root initState "r") 0 "x" true).getD (initState, 0)).1 1).current_id
        = ((delete_node ((add_above (set_root initState "r") 0 "x" true).getD (initState, 0)).1 1).nodes.head?).map Prod.fst ∧
      ((delete_node ((add_above (set_root initState "r") 0 "x" true).getD (initState, 0)).1 1).current_id = none
        ↔ (delete_node ((add_above (set_root initState "r") 0 "x" true).getD (initState, 0)).1 1).nodes = []) ∧
      (∀ m, (delete_node ((add_above (set_root initState "r") 0 "x" true).getD (initState, 0)).1 1).current_id = some m →
        m ∈ (delete_node ((add_above (set_root initState "r") 0 "x" true).getD (initState, 0)).1 1).nodes.map Prod.fst ∧
        ∀ j ∈ (delete_node ((add_above (set_root initState "r") 0 "x" true).getD (initState, 0)).1 1).nodes.map Prod.fst, m ≤ j)) :=
  have hr : add_above (set_root initState "r") 0 "x" true
      = some (((add_above (set_root initState "r") 0 "x" true).getD (initState, 0)).1, 1) := by decide
  ⟨⟨by decide, by decide⟩,
    delete_node_current_min _ 1
      (Reachable.addAbove (Reachable.setRoot "r" Reachable.init) hr)
      (by decide) (by decide)⟩

/-- Witness for C1 at the reachable one-node store `set_root initState "Q0"`. -/
theorem load_to_dict_roundTrip_witness :
    ∃ d : Doc, to_dict (set_root initState "Q0") = Except.ok d ∧
      (load_from_dict (set_root initState "Q0") d).2 = none ∧
      (load_from_dict (set_root initState "Q0") d).1.nodes = (set_root initState "Q0").nodes ∧
      (∀ e, e ∈ (load_from_dict (set_root initState "Q0") d).1.edges
        ↔ e ∈ (set_root initState "Q0").edges) ∧
      (load_from_dict (set_root initState "Q0") d).1.current_id = (set_root initState "Q0").current_id ∧
      (load_from_dict (set_root initState "Q0") d).1.root_id = (set_root initState "Q0").root_id ∧
      (load_from_dict (set_root initState "Q0") d).1.id_counter = (set_root initState "Q0").id_counter :=
  load_to_dict_roundTrip (set_root initState "Q0") (Reachable.setRoot "Q0" Reachable.init)

/-- C5: deleting an existing node `X` removes exactly the edges incident to
`X` (every edge with `X` as source or target, and no others), and if `X`
was the root, `root_id` is cleared to null. -/
theorem delete_node_cascade (s : Store) (x : Int) (h : hasNode s x = true) :
    (delete_node s x).edges = s.edges.filter (fun e => ¬ e.1 == x ∧ ¬ e.2 == x) ∧
    (s.root_id = some x → (delete_node s x).root_id = none) := by
  refine ⟨delete_node_edges h, ?_⟩
  intro hroot
  rw [delete_node, if_pos h]
  split_ifs <;> rfl

/-- Witness for C5 at the spec §8 example store (nodes 0, 1, 2; edges
(1,0) and (1,2); root 0): deleting node 1, which is the root of neither,
removes both incident edges. -/
theorem delete_node_cascade_witness :
    hasNode ((add_above (set_root initState "Q0") 0 "Q1" true).getD (initState, 0)).1 1 = true ∧
    ((delete_node ((add_above (set_root initState "Q0") 0 "Q1" true).getD (initState, 0)).1 1).edges
        = ((add_above (set_root initState "Q0") 0 "Q1" true).getD (initState, 0)).1.edges.filter
            (fun e => ¬ e.1 == 1 ∧ ¬ e.2 == 1) ∧
      (((add_above (set_root initState "Q0") 0 "Q1" true).getD (initState, 0)).1.root_id = some 1 →
        (delete_node ((add_above (set_root initState "Q0") 0 "Q1" true).getD (initState, 0)).1 1).root_id = none)) :=
  ⟨by decide,
    delete_node_cascade ((add_above (set_root initState "Q0") 0 "Q1" true).getD (initState, 0)).1 1 (by decide)⟩

theorem loadNodes_scalars (a : Store) (l : List DocNode) :
    (loadNodes a l).1.id_counter = a.id_counter ∧
    (loadNodes a l).1.root_id = a.root_id ∧
    (loadNodes a l).1.current_id = a.current_id := by
  induction l generalizing a with
  | nil => exact ⟨rfl, rfl, rfl⟩
  | cons n rest ih =>
      rcases hni : n.id with _ | nid
      · simp [loadNodes, hni]
      rcases hnt : n.text with _ | t
      · simp [loadNodes, hni, hnt]
      · simp only [loadNodes, hni, hnt]
        exact ih _

theorem loadEdges_scalars (a : Store) (l : List DocEdge) :
    (loadEdges a l).1.id_counter = a.id_counter ∧
    (loadEdges a l).1.root_id = a.root_id ∧
    (loadEdges a l).1.current_id = a.current_id := by
  induction l generalizing a with
  | nil => exact ⟨rfl, rfl, rfl⟩
  | cons e rest ih =>
      rcases hes : e.source with _ | u
      · simp [loadEdges, hes]
      rcases het : e.target with _ | v
      · simp [loadEdges, hes, het]
      · simp only [loadEdges, hes, het]
        exact ih _

theorem load_from_dict_scalars (s : Store) (d : Doc) :
    (load_from_dict s d).1.id_counter = d.id_counter.getD 0 ∧
    (load_from_dict s d).1.root_id = d.root_id ∧
    (load_from_dict s d).1.current_id = d.current_id := by
  rw [load_from_dict]
  rcases hl : loadNodes
      { nodes := [], edges := [], id_counter := d.id_counter.getD 0
        root_id := d.root_id, current_id := d.current_id }
      (d.nodes.getD []) with ⟨s1, err⟩
  have h1 := loadNodes_scalars
    { nodes := [], edges := [], id_counter := d.id_counter.getD 0
      root_id := d.root_id, current_id := d.current_id }
    (d.nodes.getD [])
  rw [hl] at h1
  cases err with
  | none =>
      have h2 := loadEdges_scalars s1 (d.edges.getD [])
      exact ⟨h2.1.trans h1.1, h2.2.1.trans h1.2.1, h2.2.2.trans h1.2.2⟩
  | some e => exact h1

/-- C6 counterexample: importing `docFail` into the non-empty store
`set_root initState "r"` raises `KeyError: text`, yet the store afterwards
is not the prior store — `G.clear()` already ran and the document's
scalars and first node were already written. -/
theorem load_from_dict_failure_counterexample :
    (load_from_dict (set_root initState "r") docFail).2 = some "KeyError: text" ∧
    (load_from_dict (set_root initState "r") docFail).1 ≠ set_root initState "r" :=
  ⟨by decide, by decide⟩

/-- C6 (amended): when `load_from_dict` raises, the prior store is NOT left
untouched.  `G.clear()` runs before anything can fail, so the state after a
failing call is fully determined by the document alone — identical to what
loading the same document over the empty store leaves behind — with
`id_counter`, `root_id` and `current_id` already overwritten from the
document.  The prior store survives only when the failure occurs before
`load_from_dict` is entered (the JSON-syntax errors caught in the UI). -/
theorem load_from_dict_failure_state (s : Store) (d : Doc)
    (_h : (load_from_dict s d).2.isSome = true) :
    (load_from_dict s d).1 = (load_from_dict initState d).1 ∧
    (load_from_dict s d).1.id_counter = d.id_counter.getD 0 ∧
    (load_from_dict s d).1.root_id = d.root_id ∧
    (load_from_dict s d).1.current_id = d.current_id :=
  ⟨rfl, load_from_dict_scalars s d⟩

/-- Witness for the amended C6 at the concrete failing import. -/
theorem load_from_dict_failure_state_witness :
    (load_from_dict (set_root initState "r") docFail).2.isSome = true ∧
    ((load_from_dict (set_root initState "r") docFail).1
        = (load_from_dict initState docFail).1 ∧
      (load_from_dict (set_root initState "r") docFail).1.id_counter = docFail.id_counter.getD 0 ∧
      (load_from_dict (set_root initState "r") docFail).1.root_id = docFail.root_id ∧
      (load_from_dict (set_root initState "r") docFail).1.current_id = docFail.current_id) :=
  ⟨by decide, load_from_dict_failure_state (set_root initState "r") docFail (by decide)⟩

theorem mem_ensureNode {ns : List (Int × Option NodeData)} {i : Int}
    {p : Int × Option NodeData} (h : p ∈ ensureNode ns i) : p ∈ ns ∨ p = (i, none) := by
  rw [ensureNode] at h
  split at h
  · exact Or.inl h
  · rcases List.mem_append.mp h with h | h
    · exact Or.inl h
    · exact Or.inr (List.mem_singleton.mp h)

theorem mem_addNodeG {ns : List (Int × Option NodeData)} {i : Int}
    {d : Option NodeData} {p : Int × Option NodeData}
    (h : p ∈ addNodeG ns i d) : p ∈ ns ∨ p = (i, d) := by
  rw [addNodeG] at h
  split at h
  · rcases List.mem_map.mp h with ⟨q, hq, hqe⟩
    by_cases hqi : q.1 = i
    · right
      rw [← hqe]
      simp [hqi]
    · left
      rw [← hqe]
      simpa [hqi] using hq
  · rcases List.mem_append.mp h with h | h
    · exact Or.inl h
    · exact Or.inr (List.mem_singleton.mp h)

theorem loadEdges_data_nodes (a : Store) (l : List DocEdge) :
    ∀ p ∈ (loadEdges a l).1.nodes, p.2.isSome = true → p ∈ a.nodes := by
  induction l generalizing a with
  | nil => exact fun p hp _ => hp
  | cons e rest ih =>
      rcases hes : e.source with _ | u
      · simp only [loadEdges, hes]
        exact fun p hp _ => hp
      rcases het : e.target with _ | v
      · simp only [loadEdges, hes, het]
        exact fun p hp _ => hp
      · intro p hp hsome
        simp only [loadEdges, hes, het] at hp
        have hp2 := ih (addEdgeG a u v) p hp hsome
        have hp3 : p ∈ ensureNode (ensureNode a.nodes u) v := hp2
        rcases mem_ensureNode hp3 with hp4 | hp4
        · rcases mem_ensureNode hp4 with hp5 | hp5
          · exact hp5
          · rw [hp5] at hsome
            simp at hsome
        · rw [hp4] at hsome
          simp at hsome

theorem loadNodes_nodes_from (a : Store) (l : List DocNode) :
    ∀ p ∈ (loadNodes a l).1.nodes, p ∈ a.nodes ∨
      ∃ n ∈ l, n.id = some p.1 ∧ ∃ t, n.text = some t ∧
        p.2 = some { text := t, level := n.level.getD 0 } := by
  induction l generalizing a with
  | nil => exact fun p hp => Or.inl hp
  | cons n rest ih =>
      rcases hni : n.id with _ | nid
      · simp only [loadNodes, hni]
        exact fun p hp => Or.inl hp
      rcases hnt : n.text with _ | t
      · simp only [loadNodes, hni, hnt]
        exact fun p hp => Or.inl hp
      · intro p hp
        simp only [loadNodes, hni, hnt] at hp
        rcases ih _ p hp with hp2 | hp2
        · rcases mem_addNodeG hp2 with hp3 | hp3
          · exact Or.inl hp3
          · refine Or.inr ⟨n, List.mem_cons_self n rest, ?_, t, hnt, ?_⟩
            · rw [hni, hp3]
            · rw [hp3]
        · rcases hp2 with ⟨m, hm, hrest⟩
          exact Or.inr ⟨m, List.mem_cons_of_mem n hm, hrest⟩

/-- C7: the defaults of `load_from_dict` — a document accepted by
the import yields `current_id` null when the `current_id` key is absent,
`root_id` null when absent, `id_counter` 0 when absent, and every loaded
node carries the level of its entry defaulted to 0, so an entry lacking
`level` yields a node with level 0. -/
theorem load_from_dict_defaults (s : Store) (d : Doc)
    (h : (load_from_dict s d).2 = none) :
    (d.current_id = none → (load_from_dict s d).1.current_id = none) ∧
    (d.root_id = none → (load_from_dict s d).1.root_id = none) ∧
    (d.id_counter = none → (load_from_dict s d).1.id_counter = 0) ∧
    (∀ p ∈ (load_from_dict s d).1.nodes, ∀ nd, p.2 = some nd →
      ∃ n ∈ d.nodes.getD [], n.id = some p.1 ∧ n.text = some nd.text ∧
        nd.level = n.level.getD 0) := by
  have hs := load_from_dict_scalars s d
  refine ⟨fun hc => by rw [hs.2.2, hc], fun hr => by rw [hs.2.1, hr],
    fun hic => by rw [hs.1, hic]; rfl, ?_⟩
  intro p hp nd hnd
  rcases hl : loadNodes
      { nodes := [], edges := [], id_counter := d.id_counter.getD 0
        root_id := d.root_id, current_id := d.current_id }
      (d.nodes.getD []) with ⟨s1, err⟩
  cases err with
  | some e =>
      rw [load_from_dict, hl] at h
      simp at h
  | none =>
      rw [load_from_dict, hl] at hp
      have hp1 : p ∈ s1.nodes :=
        loadEdges_data_nodes s1 (d.edges.getD []) p hp (by simp [hnd])
      have hp2 := loadNodes_nodes_from
        { nodes := [], edges := [], id_counter := d.id_counter.getD 0
          root_id := d.root_id, current_id := d.current_id }
        (d.nodes.getD []) p (by rw [hl]; exact hp1)
      rcases hp2 with hp3 | ⟨n, hm, hni, t, hnt, hpt⟩
      · simp at hp3
      · rw [hnd] at hpt
        have hnd2 : nd = { text := t, level := n.level.getD 0 } :=
          Option.some.inj hpt
        refine ⟨n, hm, hni, ?_, ?_⟩
        · rw [hnt, hnd2]
        · rw [hnd2]

/-- Witness for C7 at a document exercising every default: no `current_id`,
`root_id` or `id_counter` key, and a node entry without `level`. -/
theorem load_from_dict_defaults_witness :
    (load_from_dict initState
        { nodes := some [{ id := some 4, text := some "q", level := none }]
          edges := some [], current_id := none, root_id := none, id_counter := none }).2 = none ∧
    ((load_from_dict initState
        { nodes := some [{ id := some 4, text := some "q", level := none }]
          edges := some [], current_id := none, root_id := none, id_counter := none }).1.current_id = none ∧
      (load_from_dict initState
        { nodes := some [{ id := some 4, text := some "q", level := none }]
          edges := some [], current_id := none, root_id := none, id_counter := none }).1.root_id = none ∧
      (load_from_dict initState
        { nodes := some [{ id := some 4, text := some "q", level := none }]
          edges := some [], current_id := none, root_id := none, id_counter := none }).1.id_counter = 0 ∧
      getNode (load_from_dict initState
        { nodes := some [{ id := some 4, text := some "q", level := none }]
          edges := some [], current_id := none, root_id := none, id_counter := none }).1 4
        = some (some { text := "q", level := 0 })) :=
  have hd := load_from_dict_defaults initState
    { nodes := some [{ id := some 4, text := some "q", level := none }]
      edges := some [], current_id := none, root_id := none, id_counter := none }
    (by decide)
  ⟨by decide, hd.1 rfl, hd.2.1 rfl, hd.2.2.1 rfl, by decide⟩

theorem add_above_counter {s s2 : Store} {c n : Int} {t : String} {mv : Bool}
    (h : add_above s c t mv = some (s2, n)) :
    n = s.id_counter ∧ s2.id_counter = s.id_counter + 1 := by
  rw [add_above] at h
  rcases hg : getNode s c with _ | o
  · rw [hg] at h
    exact absurd h (by simp)
  rcases o with _ | nd
  · rw [hg] at h
    exact absurd h (by simp)
  rw [hg] at h
  cases mv <;>
  · injection h with h1
    injection h1 with ha hb
    subst ha
    subst hb
    exact ⟨rfl, rfl⟩

theorem add_below_counter {s s2 : Store} {c n : Int} {t : String} {mv : Bool}
    (h : add_below s c t mv = some (s2, n)) :
    n = s.id_counter ∧ s2.id_counter = s.id_counter + 1 := by
  rw [add_below] at h
  rcases hg : getNode s c with _ | o
  · rw [hg] at h
    exact absurd h (by simp)
  rcases o with _ | nd
  · rw [hg] at h
    exact absurd h (by simp)
  rw [hg] at h
  cases mv <;>
  · injection h with h1
    injection h1 with ha hb
    subst ha
    subst hb
    exact ⟨rfl, rfl⟩

theorem edit_text_counter {s s2 : Store} {i : Int} {t : String}
    (h : edit_text s i t = some s2) : s2.id_counter = s.id_counter := by
  rw [edit_text] at h
  rcases hg : getNode s i with _ | o
  · rw [hg] at h
    exact absurd h (by simp)
  rcases o with _ | nd
  · rw [hg] at h
    exact absurd h (by simp)
  rw [hg] at h
  injection h with h1
  subst h1
  rfl

theorem range_map_shift (c : Int) (n : Nat) :
    (List.range (n + 1)).map (fun (k : Nat) => c + (k : Int))
      = c :: (List.range n).map (fun (k : Nat) => (c + 1) + (k : Int)) := by
  rw [List.range_succ_eq_map, List.map_cons, List.map_map]
  refine congrArg₂ List.cons (by simp) ?_
  apply List.map_congr_left
  intro k _
  simp only [Function.comp_apply]
  push_cast
  ring

theorem issued_step_add {a s2 s3 : Store} {r3 : List Int} {n : Nat}
    (hcnt : s2.id_counter = a.id_counter + 1)
    (h1 : s3.id_counter = s2.id_counter + (n : Int))
    (h2 : r3 = (List.range n).map (fun (k : Nat) => s2.id_counter + (k : Int))) :
    s3.id_counter = a.id_counter + ((n + 1 : Nat) : Int) ∧
    [a.id_counter] ++ r3
      = (List.range (n + 1)).map (fun (k : Nat) => a.id_counter + (k : Int)) := by
  constructor
  · rw [h1, hcnt]
    push_cast
    ring
  · rw [h2, hcnt, range_map_shift]
    rfl

theorem issued_step_skip {a s2 s3 : Store} {r3 : List Int} {n : Nat}
    (hcnt : s2.id_counter = a.id_counter)
    (h1 : s3.id_counter = s2.id_counter + (n : Int))
    (h2 : r3 = (List.range n).map (fun (k : Nat) => s2.id_counter + (k : Int))) :
    s3.id_counter = a.id_counter + (n : Int) ∧
    [] ++ r3 = (List.range n).map (fun (k : Nat) => a.id_counter + (k : Int)) := by
  constructor
  · rw [h1, hcnt]
  · rw [h2, hcnt]
    rfl

theorem runOps_issued (ops : List EditOp) :
    ∀ (a s : Store) (r : List Int), runOps a ops = some (s, r) →
      s.id_counter = a.id_counter + (countAdds ops : Int) ∧
      r = (List.range (countAdds ops)).map (fun (k : Nat) => a.id_counter + (k : Int)) := by
  induction ops with
  | nil =>
      intro a s r h
      rw [runOps] at h
      injection h with h1
      injection h1 with ha hb
      subst ha
      subst hb
      simp [countAdds]
  | cons op rest ih =>
      intro a s r h
      rcases hap : applyOp a op with _ | p
      · rw [runOps, hap, Option.none_bind] at h
        exact absurd h (by simp)
      rcases p with ⟨s2, ids⟩
      rw [runOps, hap, Option.some_bind] at h
      rcases hro : runOps s2 rest with _ | q
      · rw [hro] at h
        exact absurd h (by simp)
      rcases q with ⟨s3, r3⟩
      rw [hro] at h
      simp only [Option.map_some'] at h
      injection h with h1
      injection h1 with ha hb
      subst ha
      subst hb
      have ihh := ih s2 s3 r3 hro
      cases op with
      | setRoot t =>
          rw [applyOp] at hap
          injection hap with h2
          injection h2 with hs2 hids
          have hN : countAdds (EditOp.setRoot t :: rest) = countAdds rest + 1 := by
            simp [countAdds, List.countP_cons]
          rw [hN, ← hids]
          have hcnt : s2.id_counter = a.id_counter + 1 := by
            rw [← hs2]
            rfl
          exact issued_step_add hcnt ihh.1 ihh.2
      | addAbove c t =>
          rw [applyOp] at hap
          rcases hab : add_above a c t true with _ | pr
          · rw [hab] at hap
            exact absurd hap (by simp)
          rcases pr with ⟨sA, nA⟩
          rw [hab] at hap
          simp only [Option.map_some'] at hap
          injection hap with h2
          injection h2 with hs2 hids
          have hc := add_above_counter hab
          have hN : countAdds (EditOp.addAbove c t :: rest) = countAdds rest + 1 := by
            simp [countAdds, List.countP_cons]
          rw [hN, ← hids]
          have hcnt : s2.id_counter = a.id_counter + 1 := by
            rw [← hs2]
            exact hc.2
          have hid2 : [nA] = [a.id_counter] := by
            rw [hc.1]
          rw [hid2]
          exact issued_step_add hcnt ihh.1 ihh.2
      | addBelow c t =>
          rw [applyOp] at hap
          rcases hab : add_below a c t true with _ | pr
          · rw [hab] at hap
            exact absurd hap (by simp)
          rcases pr with ⟨sA, nA⟩
          rw [hab] at hap
          simp only [Option.map_some'] at hap
          injection hap with h2
          injection h2 with hs2 hids
          have hc := add_below_counter hab
          have hN : countAdds (EditOp.addBelow c t :: rest) = countAdds rest + 1 := by
            simp [countAdds, List.countP_cons]
          rw [hN, ← hids]
          have hcnt : s2.id_counter = a.id_counter + 1 := by
            rw [← hs2]
            exact hc.2
          have hid2 : [nA] = [a.id_counter] := by
            rw [hc.1]
          rw [hid2]
          exact issued_step_add hcnt ihh.1 ihh.2
      | editText i t =>
          rw [applyOp] at hap
          rcases het : edit_text a i t with _ | sE
          · rw [het] at hap
            exact absurd hap (by simp)
          rw [het] at hap
          simp only [Option.map_some'] at hap
          injection hap with h2
          injection h2 with hs2 hids
          have hN : countAdds (EditOp.editText i t :: rest) = countAdds rest := by
            simp [countAdds, List.countP_cons]
          rw [hN, ← hids]
          have hcnt : s2.id_counter = a.id_counter := by
            rw [← hs2]
            exact edit_text_counter het
          exact issued_step_skip hcnt ihh.1 ihh.2
      | deleteNode i =>
          rw [applyOp] at hap
          injection hap with h2
          injection h2 with hs2 hids
          have hN : countAdds (EditOp.deleteNode i :: rest) = countAdds rest := by
            simp [countAdds, List.countP_cons]
          rw [hN, ← hids]
          have hcnt : s2.id_counter = a.id_counter := by
            rw [← hs2]
            exact delete_node_id_counter a i
          exact issued_step_skip hcnt ihh.1 ihh.2

/-- C8: running any successful sequence of edit operations from the initial
state issues node ids 0, 1, ..., N-1 in order, where N is the number of
`add_node` calls performed (one per `set_root`/`add_above`/`add_below`);
hence the issued ids are pairwise distinct, `id_counter` ends equal to N,
and every id ever issued is strictly less than the final `id_counter`. -/
theorem id_monotonicity (ops : List EditOp) (s : Store) (r : List Int)
    (h : runOps initState ops = some (s, r)) :
    r = (List.range (countAdds ops)).map (fun (k : Nat) => (k : Int)) ∧
    r.Nodup ∧
    s.id_counter = (countAdds ops : Int) ∧
    (∀ i ∈ r, i < s.id_counter) := by
  have hh := runOps_issued ops initState s r h
  have hc : initState.id_counter = 0 := rfl
  rw [hc] at hh
  have hr : r = (List.range (countAdds ops)).map (fun (k : Nat) => (k : Int)) := by
    rw [hh.2]
    apply List.map_congr_left
    intro k _
    simp
  refine ⟨hr, ?_, by rw [hh.1, zero_add], ?_⟩
  · rw [hr]
    exact (List.nodup_range _).map (fun x y hxy => by exact_mod_cast hxy)
  · intro i hi
    rw [hr] at hi
    rcases List.mem_map.mp hi with ⟨k, hk, rfl⟩
    rw [hh.1, zero_add]
    exact_mod_cast List.mem_range.mp hk

/-- Witness for C8: the four-operation run issues ids `[0, 1, 2]`, all
distinct, and ends with `id_counter = 3`. -/
theorem id_monotonicity_witness :
    runOps initState opsW
      = some (((runOps initState opsW).getD (initState, [])).1,
          ((runOps initState opsW).getD (initState, [])).2) ∧
    (((runOps initState opsW).getD (initState, [])).2
        = (List.range (countAdds opsW)).map (fun (k : Nat) => (k : Int)) ∧
      ((runOps initState opsW).getD (initState, [])).2.Nodup ∧
      ((runOps initState opsW).getD (initState, [])).1.id_counter = (countAdds opsW : Int) ∧
      (∀ i ∈ ((runOps initState opsW).getD (initState, [])).2,
        i < ((runOps initState opsW).getD (initState, [])).1.id_counter)) :=
  ⟨by decide,
    id_monotonicity opsW ((runOps initState opsW).getD (initState, [])).1
      ((runOps initState opsW).getD (initState, [])).2 (by decide)⟩

theorem projectF_mem (cur : Option Int) (l : List (Int × Option NodeData)) :
    ∀ ns : List RenderNode,
    (l.mapM (fun p =>
      match p.2 with
      | some nd =>
          some { id := p.1
                 label := wrap_label nd.text 26
                 title := "ID: " ++ toString p.1 ++ " | Level: " ++ toString nd.level
                 shape := "box"
                 borderWidth := if cur = some p.1 then 3 else 1 }
      | none => (none : Option RenderNode))) = some ns →
    (∀ p ∈ l, ∀ nd : NodeData, p.2 = some nd →
      ∃ rn ∈ ns, rn = { id := p.1
                        label := wrap_label nd.text 26
                        title := "ID: " ++ toString p.1 ++ " | Level: " ++ toString nd.level
                        shape := "box"
                        borderWidth := if cur = some p.1 then 3 else 1 }) ∧
    (∀ rn ∈ ns, ∃ p ∈ l, ∃ nd : NodeData, p.2 = some nd ∧
      rn = { id := p.1
             label := wrap_label nd.text 26
             title := "ID: " ++ toString p.1 ++ " | Level: " ++ toString nd.level
             shape := "box"
             borderWidth := if cur = some p.1 then 3 else 1 }) := by
  induction l with
  | nil =>
      intro ns h
      rw [List.mapM_nil] at h
      injection h with h1
      subst h1
      exact ⟨fun p hp => absurd hp (List.not_mem_nil p), fun rn hrn => absurd hrn (List.not_mem_nil rn)⟩
  | cons p rest ih =>
      intro ns h
      rw [List.mapM_cons] at h
      rcases hp2 : p.2 with _ | nd
      · rw [hp2] at h
        exact absurd h (by simp)
      rw [hp2] at h
      rcases hrest : rest.mapM (fun p =>
        match p.2 with
        | some nd =>
            some ({ id := p.1
                    label := wrap_label nd.text 26
                    title := "ID: " ++ toString p.1 ++ " | Level: " ++ toString nd.level
                    shape := "box"
                    borderWidth := if cur = some p.1 then 3 else 1 } : RenderNode)
        | none => (none : Option RenderNode)) with _ | ns2
      · rw [hrest] at h
        exact absurd h (by simp)
      rw [hrest] at h
      simp only [Option.some_bind, Option.bind_eq_bind] at h
      have hns : ns = { id := p.1
                        label := wrap_label nd.text 26
                        title := "ID: " ++ toString p.1 ++ " | Level: " ++ toString nd.level
                        shape := "box"
                        borderWidth := if cur = some p.1 then 3 else 1 } :: ns2 := by
        cases h
        rfl
      subst hns
      have ihh := ih ns2 hrest
      constructor
      · intro q hq nd2 hq2
        rcases List.mem_cons.mp hq with hq | hq
        · subst hq
          rw [hp2] at hq2
          injection hq2 with hnd
          subst hnd
          exact ⟨_, List.mem_cons_self _ _, rfl⟩
        · rcases ihh.1 q hq nd2 hq2 with ⟨rn, hrn, hre⟩
          exact ⟨rn, List.mem_cons_of_mem _ hrn, hre⟩
      · intro rn hrn
        rcases List.mem_cons.mp hrn with hrn | hrn
        · exact ⟨p, List.mem_cons_self p rest, nd, hp2, hrn⟩
        · rcases ihh.2 rn hrn with ⟨q, hq, nd2, hq2, hre⟩
          exact ⟨q, List.mem_cons_of_mem p hq, nd2, hq2, hre⟩

/-- C9: the render projection gives every node a label equal to its text
word-wrapped at column width 26, a tooltip of the exact form
`"ID: <id> | Level: <level>"`, shape `box`, and `borderWidth` 3 for the
node matching `current_id` versus 1 for every other node — so the current
node's border is strictly larger than every other node's. -/
theorem render_projection (s : Store) (ns : List RenderNode)
    (hp : project s = some ns) :
    (∀ p ∈ s.nodes, ∀ nd : NodeData, p.2 = some nd →
      ∃ rn ∈ ns, rn.id = p.1 ∧
        rn.label = wrap_label nd.text 26 ∧
        rn.title = "ID: " ++ toString p.1 ++ " | Level: " ++ toString nd.level ∧
        rn.shape = "box" ∧
        rn.borderWidth = (if s.current_id = some p.1 then 3 else 1)) ∧
    (∀ rn ∈ ns, s.current_id = some rn.id →
      ∀ rn2 ∈ ns, rn2.id ≠ rn.id → rn2.borderWidth < rn.borderWidth) := by
  have hx := projectF_mem s.current_id s.nodes ns hp
  constructor
  · intro p hp2 nd hnd
    rcases hx.1 p hp2 nd hnd with ⟨rn, hmem, hre⟩
    refine ⟨rn, hmem, ?_, ?_, ?_, ?_, ?_⟩ <;> rw [hre]
  · intro rn hrn hcur rn2 hrn2 hne
    rcases hx.2 rn hrn with ⟨p, _, nd, _, hre⟩
    rcases hx.2 rn2 hrn2 with ⟨q, _, md, _, hre2⟩
    have hid : rn.id = p.1 := by rw [hre]
    have hid2 : rn2.id = q.1 := by rw [hre2]
    have hb : rn.borderWidth = 3 := by
      have hcp : s.current_id = some p.1 := by rw [hcur, hid]
      rw [hre]
      simp [hcp]
    have hb2 : rn2.borderWidth = 1 := by
      rw [hre2]
      rw [if_neg]
      intro hq
      apply hne
      rw [hid2, hid]
      have := hcur.symm.trans hq
      injection this with h3
      rw [hid] at h3
      exact h3.symm
    rw [hb, hb2]
    decide

/-- Witness for C9 at the two-node store built by `set_root`, `add_above`
(current node 1). -/
theorem render_projection_witness :
    project ((add_above (set_root initState "Q0") 0 "Q1" true).getD (initState, 0)).1
      = some ((project ((add_above (set_root initState "Q0") 0 "Q1" true).getD (initState, 0)).1).getD []) ∧
    ((∀ p ∈ ((add_above (set_root initState "Q0") 0 "Q1" true).getD (initState, 0)).1.nodes,
        ∀ nd : NodeData, p.2 = some nd →
        ∃ rn ∈ (project ((add_above (set_root initState "Q0") 0 "Q1" true).getD (initState, 0)).1).getD [],
          rn.id = p.1 ∧
          rn.label = wrap_label nd.text 26 ∧
          rn.title = "ID: " ++ toString p.1 ++ " | Level: " ++ toString nd.level ∧
          rn.shape = "box" ∧
          rn.borderWidth = (if ((add_above (set_root initState "Q0") 0 "Q1" true).getD (initState, 0)).1.current_id = some p.1 then 3 else 1)) ∧
      (∀ rn ∈ (project ((add_above (set_root initState "Q0") 0 "Q1" true).getD (initState, 0)).1).getD [],
        ((add_above (set_root initState "Q0") 0 "Q1" true).getD (initState, 0)).1.current_id = some rn.id →
        ∀ rn2 ∈ (project ((add_above (set_root initState "Q0") 0 "Q1" true).getD (initState, 0)).1).getD [],
          rn2.id ≠ rn.id → rn2.borderWidth < rn.borderWidth)) :=
  ⟨by decide,
    render_projection ((add_above (set_root initState "Q0") 0 "Q1" true).getD (initState, 0)).1
      ((project ((add_above (set_root initState "Q0") 0 "Q1" true).getD (initState, 0)).1).getD [])
      (by decide)⟩

/-- C10: importing `docDangle` — whose edge `(0, 7)` references id 7 absent
from its node list — succeeds, silently creating node 7 with no
text/level data (no `data` attribute), and the subsequent `to_dict` fails
with a `KeyError` instead of producing a document. -/
theorem load_dangling_edge_breaks_to_dict :
    (∀ n ∈ docDangle.nodes.getD [], n.id ≠ some 7) ∧
    (load_from_dict initState docDangle).2 = none ∧
    (0, 7) ∈ (load_from_dict initState docDangle).1.edges ∧
    getNode (load_from_dict initState docDangle).1 7 = some none ∧
    to_dict (load_from_dict initState docDangle).1 = Except.error "KeyError: data" := by
  refine ⟨by decide, by decide, by decide, by decide, ?_⟩
  rfl
